import Mathlib

/-!
Verification development for the FeishuKS repository.

The repository consists of two Python jobs:
* `src/feishu-to-oss/index.py` — a scheduled sync that mirrors a Feishu wiki
  space into OSS object storage, driven by a persisted sync ledger
  (`FeishuWikiSyncer`);
* `src/oss-to-kb/adb_py_index.py` — an event-driven indexer that turns OSS
  change notifications into create/update/delete operations against an
  AnalyticDB document collection (`OSSEventProcessor`).

This file is a shallow embedding of the algorithmic core of both jobs.
External effects (Feishu API fetches, OSS reads/writes, AnalyticDB calls,
the local filesystem) are modelled by explicit environment records of pure
functions, and every storage-side effect the code performs is recorded in an
explicit operation trace, so that theorems can speak about which operations
a run performs.  The thread pool of `sync_documents_parallel` (workers only
ever read and write the ledger entry of their own document key) is modelled
by the sequential left fold over the submitted documents, which is a
linearization of the pool.
-/

namespace FeishuKS

/-- Wiki tree node, as decoded from the Feishu nodes API
(`WikiNode` dataclass in `index.py`). -/
structure WikiNode where
  node_token : String
  obj_token : String
  obj_type : String
  title : String
  space_id : String
  obj_edit_time : String
  parent_node_token : Option String := none
  has_child : Bool := false
deriving Repr, DecidableEq

/-- One persisted ledger entry (`SyncRecord` dataclass in `index.py`). -/
structure SyncRecord where
  obj_token : String
  title : String
  oss_path : String
  content_hash : String
  last_sync : Nat
  obj_edit_time : String
  obj_type : String := "docx"
deriving Repr, DecidableEq

/-- The sync ledger `self.sync_records`: a Python dict keyed by `obj_token`,
modelled as an insertion-ordered association list (Python dicts preserve
insertion order, which fixes the iteration order of
`handle_deleted_documents`). -/
abbrev Ledger := List (String × SyncRecord)

/-- Dict lookup `self.sync_records.get(obj_token)`. -/
def ledgerFind (recs : Ledger) (t : String) : Option SyncRecord :=
  (recs.find? fun p => decide (p.1 = t)).map Prod.snd

/-- Dict assignment `self.sync_records[obj_token] = record`: replaces the
entry in place when the key exists, otherwise appends. -/
def ledgerInsert (recs : Ledger) (t : String) (v : SyncRecord) : Ledger :=
  if recs.any (fun p => decide (p.1 = t)) then
    recs.map fun p => if p.1 = t then (t, v) else p
  else recs ++ [(t, v)]

/-- Dict deletion `del self.sync_records[obj_token]`. -/
def ledgerErase (recs : Ledger) (t : String) : Ledger :=
  recs.filter fun p => decide (p.1 ≠ t)

/-- `FeishuWikiSyncer.need_update`: a document needs syncing when it has no
ledger entry, or the recorded title differs, or the recorded edit time
differs. -/
def need_update (recs : Ledger) (node : WikiNode) : Bool :=
  match ledgerFind recs node.obj_token with
  | none => true
  | some record =>
    if record.title ≠ node.title then true
    else if record.obj_edit_time ≠ node.obj_edit_time then true
    else false

/-- The characters `FeishuWikiSyncer._sanitize_filename` replaces. -/
def invalid_chars : List Char := ['<', '>', ':', '"', '/', '\\', '|', '?', '*']

/-- `filename.replace(char, repl)` for a single-character pattern. -/
def replaceChar (c repl : Char) (l : List Char) : List Char :=
  l.map fun x => if x = c then repl else x

/-- Python `str.isspace` on the ASCII whitespace characters that
`str.strip()` removes. -/
def pyIsSpace (c : Char) : Bool :=
  c = ' ' || c = '\t' || c = '\n' || c = '\r' || c = '\x0b' || c = '\x0c'

/-- Python `str.strip()`: drop whitespace from both ends. -/
def pyStrip (l : List Char) : List Char :=
  ((l.dropWhile pyIsSpace).reverse.dropWhile pyIsSpace).reverse

/-- `FeishuWikiSyncer._sanitize_filename`: replace each character of
`invalid_chars` by an underscore (one `str.replace` per character, in
order), then strip surrounding whitespace. -/
def sanitize_filename (l : List Char) : List Char :=
  pyStrip (invalid_chars.foldl (fun acc c => replaceChar c '_' acc) l)

/-- String-level wrapper of `sanitize_filename`. -/
def sanitizeStr (s : String) : String :=
  String.mk (sanitize_filename s.data)

/-- Static configuration of the sync job (environment variables in
`FeishuWikiSyncer.__init__`).  `ossPfx` is `OSS_PREFIX` and
`localRoot` is `LOCAL_STORAGE_PATH`. -/
structure SyncCfg where
  ossPfx : String := "wiki/"
  localRoot : String := "/tmp/wiki_docs"
deriving Repr

/-- `space_name or node.space_id`: Python `or` falls through on `None`
and on the empty string. -/
def rootDirOf (node : WikiNode) (space_name : Option String) : String :=
  match space_name with
  | some s => if s = "" then node.space_id else s
  | none => node.space_id

/-- `FeishuWikiSyncer.generate_oss_path`:
`prefix + sanitized_space + "/" + sanitized_title + ".md"`. -/
def generate_oss_path (cfg : SyncCfg) (node : WikiNode) (space_name : Option String) : String :=
  cfg.ossPfx ++ sanitizeStr (rootDirOf node space_name) ++ "/" ++ sanitizeStr node.title ++ ".md"

/-- `FeishuWikiSyncer.generate_local_path`:
`local_storage_path/sanitized_space/sanitized_title.md`. -/
def generate_local_path (cfg : SyncCfg) (node : WikiNode) (space_name : Option String) : String :=
  cfg.localRoot ++ "/" ++ sanitizeStr (rootDirOf node space_name) ++ "/" ++
    sanitizeStr node.title ++ ".md"

/-- Environment of one sync run: the outcome of every external effect the
syncer performs, as pure functions.
* `fetchContent` — outcome of `get_document_content`'s API call for a token:
  `none` means the call failed after retries, raised, or returned empty
  content (the function catches all of these and returns `None`);
* `hashFn` — the MD5 hex digest `hashlib.md5(...).hexdigest()`, abstract;
* `saveLocalOk` — whether `save_to_local` succeeds for a local path;
* `uploadOk` — whether `_retry_upload_file` (after its internal retries)
  succeeds for an OSS path;
* `deleteOk` — whether `delete_from_oss` (after its internal retries)
  succeeds for an OSS path. -/
structure SyncEnv where
  fetchContent : String → Option String
  hashFn : String → String
  saveLocalOk : String → Bool
  uploadOk : String → Bool
  deleteOk : String → Bool

/-- One storage-side operation performed against the OSS bucket. -/
inductive OssOp where
  | delete (path : String)
  | upload (path : String)
deriving Repr, DecidableEq

/-- `FeishuWikiSyncer.get_document_content`: non-`docx` objects are skipped
with `None`; otherwise the (retried) API call either yields the markdown
content or `None` (failure or empty content). -/
def get_document_content (env : SyncEnv) (obj_token obj_type : String) : Option String :=
  if obj_type ≠ "docx" then none
  else
    match env.fetchContent obj_token with
    | none => none
    | some c => if c = "" then none else some c

/-- `FeishuWikiSyncer.sync_single_document`.  Returns the success flag, the
updated ledger, and the OSS operations performed (the `handle_title_change`
delete of the old path, and the upload of the new content).  Failure of the
old-path delete is ignored by the code (`handle_title_change` logs and
returns), so the delete is recorded unconditionally and `env.deleteOk` is
not consulted here. -/
def sync_single_document (env : SyncEnv) (cfg : SyncCfg) (recs : Ledger)
    (node : WikiNode) (space_name : Option String) (now : Nat) :
    Bool × Ledger × List OssOp :=
  if need_update recs node = false then (true, recs, [])
  else
    match get_document_content env node.obj_token node.obj_type with
    | none => (false, recs, [])
    | some content =>
      let renameOps : List OssOp :=
        match ledgerFind recs node.obj_token with
        | some old => if old.title ≠ node.title then [OssOp.delete old.oss_path] else []
        | none => []
      let local_path := generate_local_path cfg node space_name
      let oss_path := generate_oss_path cfg node space_name
      let content_hash := env.hashFn content
      if env.saveLocalOk local_path = false then (false, recs, renameOps)
      else if env.uploadOk oss_path = false then
        (false, recs, renameOps ++ [OssOp.upload oss_path])
      else
        (true,
         ledgerInsert recs node.obj_token
           { obj_token := node.obj_token
             title := node.title
             oss_path := oss_path
             content_hash := content_hash
             last_sync := now
             obj_edit_time := node.obj_edit_time
             obj_type := node.obj_type },
         renameOps ++ [OssOp.upload oss_path])

/-- Loop body of `handle_deleted_documents`: for a ledger item whose key is
absent from the live set, `delete_from_oss` is attempted; only when it
reports success is the key queued for removal and the counter bumped. -/
def hddStep (env : SyncEnv) (current_docs : List String)
    (acc : Nat × List String × List OssOp) (p : String × SyncRecord) :
    Nat × List String × List OssOp :=
  if p.1 ∈ current_docs then acc
  else if env.deleteOk p.2.oss_path then
    (acc.1 + 1, acc.2.1 ++ [p.1], acc.2.2 ++ [OssOp.delete p.2.oss_path])
  else (acc.1, acc.2.1, acc.2.2 ++ [OssOp.delete p.2.oss_path])

/-- `FeishuWikiSyncer.handle_deleted_documents`: iterate over the ledger,
attempt a storage delete for every entry absent from `current_docs`, then
remove the successfully deleted keys from the ledger.  Returns the count of
deleted documents, the updated ledger, and the delete operations issued. -/
def handle_deleted_documents (env : SyncEnv) (recs : Ledger)
    (current_docs : List String) : Nat × Ledger × List OssOp :=
  let loop := recs.foldl (hddStep env current_docs) (0, [], [])
  (loop.1, loop.2.1.foldl ledgerErase recs, loop.2.2)

/-- Aggregate state of the worker pool of `sync_documents_parallel`. -/
structure PoolState where
  successful : Nat
  failed : Nat
  records : Ledger
  ops : List OssOp

/-- Per-document step of the pool: run `sync_single_document` and count the
result as successful or failed. -/
def syncStep (env : SyncEnv) (cfg : SyncCfg) (space_name : Option String) (now : Nat)
    (st : PoolState) (node : WikiNode) : PoolState :=
  let r := sync_single_document env cfg st.records node space_name now
  { successful := st.successful + (if r.1 then 1 else 0)
    failed := st.failed + (if r.1 then 0 else 1)
    records := r.2.1
    ops := st.ops ++ r.2.2 }

/-- The drained worker pool, linearized as a left fold (each worker touches
only its own document's ledger key). -/
def syncPool (env : SyncEnv) (cfg : SyncCfg) (space_name : Option String) (now : Nat)
    (st : PoolState) (nodes : List WikiNode) : PoolState :=
  nodes.foldl (syncStep env cfg space_name now) st

/-- Outcome counts of `sync_documents_parallel`. -/
structure SyncResult where
  successful : Nat
  failed : Nat
  skipped : Nat
  deleted : Nat
deriving Repr, DecidableEq

/-- `FeishuWikiSyncer.sync_documents_parallel`: filter the walked nodes to
`docx` documents, split them into the to-sync set and the skipped set with
`need_update`, snapshot the live token set, drain the pool, then reconcile
deletions against the snapshot.  Returns the outcome counts, the final
ledger, and the full OSS operation trace of the run. -/
def sync_documents_parallel (env : SyncEnv) (cfg : SyncCfg) (recs : Ledger)
    (nodes : List WikiNode) (space_name : Option String) (now : Nat) :
    SyncResult × Ledger × List OssOp :=
  let doc_nodes := nodes.filter fun n => decide (n.obj_type = "docx")
  let nodes_to_sync := doc_nodes.filter fun n => need_update recs n
  let skipped_count := (doc_nodes.filter fun n => !(need_update recs n)).length
  let current_doc_tokens := doc_nodes.map (·.obj_token)
  let st := syncPool env cfg space_name now ⟨0, 0, recs, []⟩ nodes_to_sync
  let hdd := handle_deleted_documents env st.records current_doc_tokens
  ({ successful := st.successful
     failed := st.failed
     skipped := skipped_count
     deleted := hdd.1 },
   hdd.2.1, st.ops ++ hdd.2.2)

/-! ### Retry wrapper (`FeishuWikiSyncer._retry_with_backoff`)

Delays are modelled over `ℚ` (the code computes them with Python floats;
only the shape of the formula is of interest here).  `jit attempt` stands
for the `random.uniform(0, 1)` draw of the given attempt. -/

/-- Classification of a raised exception, following the `except` clauses of
`_retry_with_backoff`: `RateLimitError`, other `RetryableError`, anything
else. -/
inductive ErrKind where
  | rateLimit
  | retryable
  | other
deriving Repr, DecidableEq

/-- An exception value: its class and its message. -/
structure Err where
  kind : ErrKind
  msg : String
deriving Repr, DecidableEq

/-- The retry loop from a given attempt index with the given number of
retries still allowed.  Returns the final result, the number of calls made,
and the list of sleeps performed between calls. -/
def retryAux (base : ℚ) (jit : Nat → ℚ) (f : Nat → Except Err α) :
    Nat → Nat → Except Err α × Nat × List ℚ
  | attempt, 0 =>
    match f attempt with
    | .ok v => (.ok v, 1, [])
    | .error e => (.error e, 1, [])
  | attempt, fuel + 1 =>
    match f attempt with
    | .ok v => (.ok v, 1, [])
    | .error e =>
      match e.kind with
      | .other => (.error e, 1, [])
      | .rateLimit =>
        let r := retryAux base jit f (attempt + 1) fuel
        (r.1, r.2.1 + 1, (base * 2 ^ attempt + jit attempt) :: r.2.2)
      | .retryable =>
        let r := retryAux base jit f (attempt + 1) fuel
        (r.1, r.2.1 + 1, (base * 2 ^ attempt) :: r.2.2)

/-- `FeishuWikiSyncer._retry_with_backoff`: up to `maxRetries + 1` calls of
`f`; a `RateLimitError` on a non-final attempt sleeps
`base * 2 ^ attempt + uniform(0, 1)`, another `RetryableError` sleeps
`base * 2 ^ attempt`, any other exception propagates at once, and the final
attempt re-raises. -/
def retry_with_backoff (maxRetries : Nat) (base : ℚ) (jit : Nat → ℚ)
    (f : Nat → Except Err α) : Except Err α × Nat × List ℚ :=
  retryAux base jit f 0 maxRetries

end FeishuKS

namespace OssKb

/-! ### Event-driven indexer (`src/oss-to-kb/adb_py_index.py`) -/

/-- `object_key.split('/')[-1]`: the characters after the last separator. -/
def lastComponent (sep : Char) (l : List Char) : List Char :=
  ((l.reverse.takeWhile fun x => x ≠ sep).reverse)

/-- Python substring containment `needle in hay`. -/
def containsSub (needle : List Char) : List Char → Bool
  | [] => needle.isEmpty
  | a :: t => needle.isPrefixOf (a :: t) || containsSub needle t

/-- Value of one hexadecimal digit, if any. -/
def hexVal (c : Char) : Option Nat :=
  if '0' ≤ c ∧ c ≤ '9' then some (c.toNat - '0'.toNat)
  else if 'a' ≤ c ∧ c ≤ 'f' then some (c.toNat - 'a'.toNat + 10)
  else if 'A' ≤ c ∧ c ≤ 'F' then some (c.toNat - 'A'.toNat + 10)
  else none

/-- `urllib.parse.unquote`, modelled at code-unit level: a valid `%XX`
escape becomes the character with that code, an invalid escape is kept
verbatim (multi-byte UTF-8 sequences are not reassembled; no claim depends
on them). -/
def unquoteChars : List Char → List Char
  | '%' :: a :: b :: rest =>
    match hexVal a, hexVal b with
    | some x, some y => Char.ofNat (16 * x + y) :: unquoteChars rest
    | _, _ => '%' :: unquoteChars (a :: b :: rest)
  | c :: rest => c :: unquoteChars rest
  | [] => []

/-- `OSSEventProcessor.IGNORED_FILES`. -/
def IGNORED_FILES : List String :=
  ["sync_records.json", ".DS_Store", "Thumbs.db", ".gitkeep", ".gitignore"]

/-- `OSSEventProcessor.IGNORED_PATTERNS['prefixes']`. -/
def ignoredPfxPats : List String := [".", "~", "_tmp_", "temp_"]

/-- `OSSEventProcessor.IGNORED_PATTERNS['suffixes']`. -/
def ignoredSfxPats : List String := [".tmp", ".bak", ".swp", "~"]

/-- `file_name.startswith(pat)` on the underlying characters. -/
def startsWithStr (pat s : String) : Bool :=
  pat.data.isPrefixOf s.data

/-- `file_name.endswith(pat)` on the underlying characters. -/
def endsWithStr (pat s : String) : Bool :=
  pat.data.isSuffixOf s.data

/-- `OSSEventProcessor._is_ignored_file`: exact match against the ignore
set, then the first matching ignore-name pattern by prefix, then by
suffix.  Returns the decision and the reason. -/
def is_ignored_file (file_name : String) : Bool × String :=
  if file_name ∈ IGNORED_FILES then (true, "文件在忽略列表中: " ++ file_name)
  else
    match ignoredPfxPats.find? (fun p => startsWithStr p file_name) with
    | some p => (true, "文件名以忽略前缀开头: " ++ p)
    | none =>
      match ignoredSfxPats.find? (fun p => endsWithStr p file_name) with
      | some p => (true, "文件名以忽略后缀结尾: " ++ p)
      | none => (false, "")

/-- `supported_extensions` of `_should_process_file`. -/
def supported_extensions : List String :=
  [".md", ".txt", ".pdf", ".docx", ".doc",
   ".html", ".htm", ".json", ".csv",
   ".py", ".java", ".cpp", ".c", ".h",
   ".js", ".ts", ".jsx", ".tsx",
   ".go", ".rs", ".rb", ".php",
   ".xml", ".yaml", ".yml", ".toml",
   ".sh", ".bash", ".sql"]

/-- The extension part of `os.path.splitext`: the basename from its last
dot on, provided some character of the basename before that dot is not a
dot (so dotfiles such as `.gitignore` have no extension). -/
def splitextExt (l : List Char) : List Char :=
  let base := lastComponent '/' l
  let rev := base.reverse
  let extRev := rev.takeWhile fun x => x ≠ '.'
  match rev.dropWhile (fun x => x ≠ '.') with
  | [] => []
  | _ :: stemRev => if stemRev.any (fun x => x ≠ '.') then '.' :: extRev.reverse else []

/-- The root part of `os.path.splitext` (basename without the extension). -/
def splitextRoot (l : List Char) : List Char :=
  let base := lastComponent '/' l
  base.take (base.length - (splitextExt l).length)

/-- Python `str.lower()` (ASCII case folding suffices for the keys and
extension lists involved). -/
def pyLower (s : String) : String :=
  String.mk (s.data.map Char.toLower)

/-- `OSSEventProcessor._should_process_file`: reject ignored base names,
keys outside the configured key-prefix filter, directory markers, and
missing or unsupported extensions; accept everything else.  Returns the
decision and a reason string. -/
def should_process_file (pfxFilter : String) (object_key : String) : Bool × String :=
  let file_name := String.mk (lastComponent '/' object_key.data)
  let ign := is_ignored_file file_name
  if ign.1 then (false, ign.2)
  else if !(startsWithStr pfxFilter object_key) then
    (false, "文件不在处理范围内 (要求前缀: " ++ pfxFilter ++ ")")
  else if endsWithStr "/" object_key then (false, "对象是目录，不是文件")
  else
    let file_ext := String.mk (splitextExt (pyLower object_key).data)
    if file_ext = "" then (false, "文件没有扩展名")
    else if !(supported_extensions.contains file_ext) then
      (false, "不支持的文件类型: " ++ file_ext)
    else (true, "文件符合处理条件")

/-- Contents of one OSS object, abstracted to its byte length plus an
opaque payload tag (the code only measures `len(file_content)` and passes
the bytes through to the upload SDK). -/
structure OssContent where
  size : Nat
  payload : String := ""
deriving Repr, DecidableEq

/-- One record of the OSS notification payload (`events[i]` with its
`oss.bucket.name`, `oss.object.key`, `eventName` and `region` fields). -/
structure OssRecord where
  eventName : String
  region : String
  bucketName : String
  objectKeyEncoded : String
deriving Repr, DecidableEq

/-- A decoded OSS notification. -/
structure KbEvent where
  events : List OssRecord
deriving Repr, DecidableEq

/-- The `file_info` dict produced by `_extract_file_info_from_event`. -/
structure FileInfo where
  bucket_name : String
  object_key : String
  file_name : String
  event_name : String
  region : String
deriving Repr, DecidableEq

/-- `OSSEventProcessor._extract_file_info_from_event`: raise when the
notification holds no records, otherwise read bucket, URL-decoded object
key, event name and region (with the `oss-` provider marker stripped) from
the FIRST record. -/
def extract_file_info (ev : KbEvent) : Except String FileInfo :=
  match ev.events with
  | [] => .error "事件中没有找到events"
  | r :: _ =>
    let object_key := String.mk (unquoteChars r.objectKeyEncoded.data)
    let region :=
      if startsWithStr "oss-" r.region then String.mk (r.region.data.drop 4) else r.region
    .ok
      { bucket_name := r.bucketName
        object_key := object_key
        file_name := String.mk (lastComponent '/' object_key.data)
        event_name := r.eventName
        region := region }

/-- `OSSEventProcessor._extract_metadata_from_path` (with `now` standing
for `int(time.time())`): source marker, timestamp, full path, space (second
path segment), title (basename without extension), file type, and the
joined middle directories. -/
def extract_metadata_from_path (object_key : String) (now : Nat) : List (String × String) :=
  let path_parts := (object_key.splitOn "/")
  let baseMeta :=
    [("source", "feishu_wiki"), ("sync_timestamp", toString now), ("full_path", object_key)]
  let withSpace :=
    if 2 ≤ path_parts.length then baseMeta ++ [("space", path_parts.getD 1 "")] else baseMeta
  let withTitle :=
    withSpace ++ [("title", String.mk (splitextRoot object_key.data))]
  let fileExt := splitextExt object_key.data
  let withType :=
    if fileExt ≠ [] then withTitle ++ [("file_type", String.mk (fileExt.drop 1))] else withTitle
  if 2 < path_parts.length then
    withType ++ [("directories", String.intercalate "/" (path_parts.drop 1|>.dropLast))]
  else withType

/-- Environment of one indexer invocation: outcome of the OSS download
(`Except` carrying the raised message on failure), outcome of the
AnalyticDB ingestion submission (job id, or raised message), and the
boolean outcome of `AnalyticDBClient.delete_document` (which catches its
own exceptions). -/
structure KbEnv where
  download : String → String → String → Except String OssContent
  uploadDoc : String → OssContent → List (String × String) → Except String String
  deleteDoc : String → Bool

/-- Configuration of the indexer (`OSS_PREFIX_FILTER`). -/
structure KbCfg where
  pfxFilter : String := "wiki/"
deriving Repr

/-- One externally visible operation of the indexer. -/
inductive KbOp where
  | download (bucket object_key : String)
  | submitUpload (file_name : String)
  | deleteDoc (file_name : String)
deriving Repr, DecidableEq

/-- Structured outcome dicts returned by the three event handlers. -/
inductive KbResult where
  | skip (reason file_name : String)
  | uploadSuccess (job_id file_name : String) (file_size : Nat)
  | uploadFailed (error file_name : String)
  | updateSuccess (delete_success : Bool) (upload_job_id file_name : String) (file_size : Nat)
  | updateFailed (error file_name : String)
  | deleteDone (success : Bool) (file_name : String)
  | unsupported (event_name : String)
deriving Repr, DecidableEq

/-- The 200 MiB size cap of the create/update handlers. -/
def max_size : Nat := 200 * 1024 * 1024

/-- `OSSEventProcessor.process_create_event`: filter, download, size check
(raising inside the handler's `try`), metadata, ingestion submission.  All
exceptions of the `try` block are caught and reported as a structured
failed outcome. -/
def process_create_event (env : KbEnv) (cfg : KbCfg) (now : Nat) (fi : FileInfo) :
    KbResult × List KbOp :=
  let sp := should_process_file cfg.pfxFilter fi.object_key
  if sp.1 = false then (.skip sp.2 fi.file_name, [])
  else
    match env.download fi.bucket_name fi.object_key fi.region with
    | .error e => (.uploadFailed e fi.file_name, [.download fi.bucket_name fi.object_key])
    | .ok content =>
      if max_size < content.size then
        (.uploadFailed ("文件太大: " ++ toString content.size ++ " 字节，超过200MB限制")
           fi.file_name,
         [.download fi.bucket_name fi.object_key])
      else
        let metadata := extract_metadata_from_path fi.object_key now ++ [("event_type", "create")]
        match env.uploadDoc fi.file_name content metadata with
        | .error e =>
          (.uploadFailed e fi.file_name,
           [.download fi.bucket_name fi.object_key, .submitUpload fi.file_name])
        | .ok job_id =>
          (.uploadSuccess job_id fi.file_name content.size,
           [.download fi.bucket_name fi.object_key, .submitUpload fi.file_name])

/-- `OSSEventProcessor.process_update_event`: filter, best-effort index
delete (its boolean outcome is only recorded), then the same
download/size-check/metadata/submit sequence as the create handler. -/
def process_update_event (env : KbEnv) (cfg : KbCfg) (now : Nat) (fi : FileInfo) :
    KbResult × List KbOp :=
  let sp := should_process_file cfg.pfxFilter fi.object_key
  if sp.1 = false then (.skip sp.2 fi.file_name, [])
  else
    let delete_success := env.deleteDoc fi.file_name
    match env.download fi.bucket_name fi.object_key fi.region with
    | .error e =>
      (.updateFailed e fi.file_name,
       [.deleteDoc fi.file_name, .download fi.bucket_name fi.object_key])
    | .ok content =>
      if max_size < content.size then
        (.updateFailed ("文件太大: " ++ toString content.size ++ " 字节，超过200MB限制")
           fi.file_name,
         [.deleteDoc fi.file_name, .download fi.bucket_name fi.object_key])
      else
        let metadata := extract_metadata_from_path fi.object_key now ++ [("event_type", "update")]
        match env.uploadDoc fi.file_name content metadata with
        | .error e =>
          (.updateFailed e fi.file_name,
           [.deleteDoc fi.file_name, .download fi.bucket_name fi.object_key,
            .submitUpload fi.file_name])
        | .ok job_id =>
          (.updateSuccess delete_success job_id fi.file_name content.size,
           [.deleteDoc fi.file_name, .download fi.bucket_name fi.object_key,
            .submitUpload fi.file_name])

/-- `OSSEventProcessor.process_delete_event`: filter, then delete the index
entry for the file name; the boolean outcome is the whole result. -/
def process_delete_event (env : KbEnv) (cfg : KbCfg) (fi : FileInfo) :
    KbResult × List KbOp :=
  let sp := should_process_file cfg.pfxFilter fi.object_key
  if sp.1 = false then (.skip sp.2 fi.file_name, [])
  else (.deleteDone (env.deleteDoc fi.file_name) fi.file_name, [.deleteDoc fi.file_name])

/-- Event-name routing of `handler`: substring classification into
create / update / delete / unsupported. -/
def route_event (env : KbEnv) (cfg : KbCfg) (now : Nat) (fi : FileInfo) :
    KbResult × List KbOp :=
  if containsSub "ObjectCreated".data fi.event_name.data then
    process_create_event env cfg now fi
  else if containsSub "ObjectModified".data fi.event_name.data ||
      containsSub "ObjectOverwrote".data fi.event_name.data then
    process_update_event env cfg now fi
  else if containsSub "ObjectRemoved".data fi.event_name.data then
    process_delete_event env cfg fi
  else (.unsupported fi.event_name, [])

/-- Invocation response of the indexer (`statusCode` plus the structured
body). -/
structure KbResponse where
  statusCode : Nat
  success : Bool
  event_name : String
  result : Option KbResult
deriving Repr, DecidableEq

/-- The `handler` entry point of `adb_py_index.py`, from the decoded event
on: a parse failure is the only 500; every routed outcome (including skips
and structured failures) is returned with status 200. -/
def kb_handler (env : KbEnv) (cfg : KbCfg) (now : Nat) (ev : KbEvent) :
    KbResponse × List KbOp :=
  match extract_file_info ev with
  | .error _ => ({ statusCode := 500, success := false, event_name := "", result := none }, [])
  | .ok fi =>
    let r := route_event env cfg now fi
    ({ statusCode := 200, success := true, event_name := fi.event_name, result := some r.1 },
     r.2)

end OssKb

namespace FeishuKS

/-! ### Ledger lemmas -/

lemma ledgerFind_nil (t : String) : ledgerFind [] t = none := rfl

lemma ledgerFind_cons (p : String × SyncRecord) (rest : Ledger) (t : String) :
    ledgerFind (p :: rest) t = if p.1 = t then some p.2 else ledgerFind rest t := by
  by_cases h : p.1 = t <;> simp [ledgerFind, List.find?_cons, h]

lemma find?_map_update (t : String) (v : SyncRecord) :
    ∀ recs : Ledger, recs.any (fun p => decide (p.1 = t)) = true →
      ledgerFind (recs.map fun p => if p.1 = t then (t, v) else p) t = some v := by
  intro recs
  induction recs with
  | nil => simp
  | cons p rest ih =>
    intro h
    by_cases hp : p.1 = t
    · simp [ledgerFind_cons, hp]
    · have h' : rest.any (fun p => decide (p.1 = t)) = true := by
        simpa [List.any_cons, hp] using h
      simpa [ledgerFind_cons, hp] using ih h'

lemma find?_append_single (t : String) (v : SyncRecord) :
    ∀ recs : Ledger, recs.any (fun p => decide (p.1 = t)) = false →
      ledgerFind (recs ++ [(t, v)]) t = some v := by
  intro recs
  induction recs with
  | nil => simp [ledgerFind_cons]
  | cons p rest ih =>
    intro h
    have hp : ¬(p.1 = t) := by
      intro hc
      simp [List.any_cons, hc] at h
    have h' : rest.any (fun p => decide (p.1 = t)) = false := by
      simpa [List.any_cons, hp] using h
    simpa [ledgerFind_cons, hp] using ih h'

lemma ledgerFind_insert_self (recs : Ledger) (t : String) (v : SyncRecord) :
    ledgerFind (ledgerInsert recs t v) t = some v := by
  unfold ledgerInsert
  split
  next h => exact find?_map_update t v recs h
  next h => exact find?_append_single t v recs (Bool.eq_false_iff.mpr h)

lemma find?_map_ne (t : String) (v : SyncRecord) (u : String) (h : u ≠ t) :
    ∀ recs : Ledger,
      ledgerFind (recs.map fun p => if p.1 = t then (t, v) else p) u = ledgerFind recs u := by
  intro recs
  induction recs with
  | nil => rfl
  | cons p rest ih =>
    by_cases hp : p.1 = t
    · have htu : ¬((t : String) = u) := fun hc => h hc.symm
      have hpu : ¬(p.1 = u) := by rw [hp]; exact htu
      simp [List.map_cons, hp, ledgerFind_cons, hpu, htu, ih]
    · by_cases hpu : p.1 = u <;> simp [List.map_cons, hp, ledgerFind_cons, hpu, h, ih]

lemma find?_append_ne (t : String) (v : SyncRecord) (u : String) (h : u ≠ t) :
    ∀ recs : Ledger, ledgerFind (recs ++ [(t, v)]) u = ledgerFind recs u := by
  intro recs
  induction recs with
  | nil =>
    have htu : ¬((t : String) = u) := fun hc => h hc.symm
    simp [ledgerFind_cons, htu, ledgerFind_nil]
  | cons p rest ih =>
    by_cases hpu : p.1 = u <;> simp [List.cons_append, ledgerFind_cons, hpu, ih]

lemma ledgerFind_insert_ne (recs : Ledger) (t : String) (v : SyncRecord) (u : String)
    (h : u ≠ t) : ledgerFind (ledgerInsert recs t v) u = ledgerFind recs u := by
  unfold ledgerInsert
  split
  · exact find?_map_ne t v u h recs
  · exact find?_append_ne t v u h recs

/-! ### Counting lemmas for the worker pool -/

lemma length_filter_not_add (p : α → Bool) (l : List α) :
    (l.filter p).length + (l.filter fun a => !(p a)).length = l.length := by
  induction l with
  | nil => rfl
  | cons a rest ih =>
    cases h : p a <;> simp [List.filter_cons, h] <;> omega

lemma syncPool_counts (env : SyncEnv) (cfg : SyncCfg) (sn : Option String) (now : Nat) :
    ∀ (ns : List WikiNode) (st : PoolState),
      (syncPool env cfg sn now st ns).successful + (syncPool env cfg sn now st ns).failed
        = st.successful + st.failed + ns.length := by
  intro ns
  induction ns with
  | nil => intro st; simp [syncPool]
  | cons n rest ih =>
    intro st
    have h := ih (syncStep env cfg sn now st n)
    simp only [syncPool, List.foldl_cons] at h ⊢
    rw [h]
    cases hr : (sync_single_document env cfg st.records n sn now).1 <;>
      simp [syncStep, hr] <;> omega

/-! ### C2 and C10 -/

/-- C2.  Change classification: a descriptor with no ledger entry always
needs sync; a descriptor with a ledger entry of the same id needs sync
exactly when the recorded title or the recorded edit timestamp differs. -/
theorem need_update_spec (recs : Ledger) (node : WikiNode) :
    (ledgerFind recs node.obj_token = none → need_update recs node = true) ∧
    (∀ r : SyncRecord, ledgerFind recs node.obj_token = some r →
      (need_update recs node = true ↔
        (r.title ≠ node.title ∨ r.obj_edit_time ≠ node.obj_edit_time))) := by
  constructor
  · intro h
    simp [need_update, h]
  · intro r h
    simp only [need_update, h]
    by_cases ht : r.title = node.title <;> by_cases he : r.obj_edit_time = node.obj_edit_time <;>
      simp [ht, he]

/-- Concrete node used by witnesses. -/
def nodeA : WikiNode :=
  { node_token := "n1", obj_token := "tok1", obj_type := "docx", title := "Guide",
    space_id := "sp1", obj_edit_time := "100" }

/-- Concrete ledger entry used by witnesses. -/
def recA : SyncRecord :=
  { obj_token := "tok1", title := "Guide", oss_path := "wiki/sp1/Guide.md",
    content_hash := "h", last_sync := 0, obj_edit_time := "100" }

theorem need_update_spec_witness :
    need_update [] nodeA = true ∧
      (need_update [("tok1", recA)] nodeA = true ↔
        (recA.title ≠ nodeA.title ∨ recA.obj_edit_time ≠ nodeA.obj_edit_time)) :=
  ⟨(need_update_spec [] nodeA).1 rfl,
   (need_update_spec [("tok1", recA)] nodeA).2 recA (by decide)⟩

/-- C10.  Run-outcome count invariant: every docx node of the walked list is
counted exactly once, so `successful + failed + skipped` equals the number
of docx nodes. -/
theorem sync_counts_total (env : SyncEnv) (cfg : SyncCfg) (recs : Ledger)
    (nodes : List WikiNode) (sn : Option String) (now : Nat) :
    (sync_documents_parallel env cfg recs nodes sn now).1.successful +
      (sync_documents_parallel env cfg recs nodes sn now).1.failed +
      (sync_documents_parallel env cfg recs nodes sn now).1.skipped
      = (nodes.filter fun n => decide (n.obj_type = "docx")).length := by
  have hpool := syncPool_counts env cfg sn now
    ((nodes.filter fun n => decide (n.obj_type = "docx")).filter fun n => need_update recs n)
    ⟨0, 0, recs, []⟩
  have hsplit := length_filter_not_add (fun n => need_update recs n)
    (nodes.filter fun n => decide (n.obj_type = "docx"))
  simp only [sync_documents_parallel]
  simp only at hpool
  omega

/-! ### C5: retry budget and backoff -/

lemma retryAux_rateLimit_all {α : Type} (base : ℚ) (jit : Nat → ℚ) (f : Nat → Except Err α)
    (h : ∀ i, ∃ m, f i = .error ⟨.rateLimit, m⟩) :
    ∀ fuel attempt : Nat,
      retryAux base jit f attempt fuel =
        (f (attempt + fuel), fuel + 1,
         (List.range' attempt fuel).map fun i => base * 2 ^ i + jit i) := by
  intro fuel
  induction fuel with
  | zero =>
    intro attempt
    obtain ⟨m, hm⟩ := h attempt
    simp [retryAux, hm, List.range']
  | succ fuel ih =>
    intro attempt
    obtain ⟨m, hm⟩ := h attempt
    have harg : attempt + 1 + fuel = attempt + (fuel + 1) := by omega
    simp [retryAux, hm, ih (attempt + 1), List.range', harg]

lemma retryAux_retryable_all {α : Type} (base : ℚ) (jit : Nat → ℚ) (f : Nat → Except Err α)
    (h : ∀ i, ∃ m, f i = .error ⟨.retryable, m⟩) :
    ∀ fuel attempt : Nat,
      retryAux base jit f attempt fuel =
        (f (attempt + fuel), fuel + 1,
         (List.range' attempt fuel).map fun i => base * 2 ^ i) := by
  intro fuel
  induction fuel with
  | zero =>
    intro attempt
    obtain ⟨m, hm⟩ := h attempt
    simp [retryAux, hm, List.range']
  | succ fuel ih =>
    intro attempt
    obtain ⟨m, hm⟩ := h attempt
    have harg : attempt + 1 + fuel = attempt + (fuel + 1) := by omega
    simp [retryAux, hm, ih (attempt + 1), List.range', harg]

/-- C5.  Retry budget and backoff, with `jit attempt` standing for the
`random.uniform(0, 1)` draw of the given attempt: a callee failing with a
rate-limit error on every attempt is called exactly `maxRetries + 1` times,
the final exception is re-raised, and the sleeps between calls are
`base * 2 ^ attempt + jit attempt`; a callee failing with a plain
retryable error on every attempt gets the same budget with sleeps
`base * 2 ^ attempt` (no jitter); any other exception propagates at once
after a single call. -/
theorem retry_with_backoff_spec :
    (∀ (α : Type) (maxRetries : Nat) (base : ℚ) (jit : Nat → ℚ) (f : Nat → Except Err α),
      (∀ i, ∃ m, f i = .error ⟨.rateLimit, m⟩) →
        (retry_with_backoff maxRetries base jit f).2.1 = maxRetries + 1 ∧
        (retry_with_backoff maxRetries base jit f).1 = f maxRetries ∧
        (retry_with_backoff maxRetries base jit f).2.2
          = (List.range maxRetries).map fun i => base * 2 ^ i + jit i) ∧
    (∀ (α : Type) (maxRetries : Nat) (base : ℚ) (jit : Nat → ℚ) (f : Nat → Except Err α),
      (∀ i, ∃ m, f i = .error ⟨.retryable, m⟩) →
        (retry_with_backoff maxRetries base jit f).2.1 = maxRetries + 1 ∧
        (retry_with_backoff maxRetries base jit f).1 = f maxRetries ∧
        (retry_with_backoff maxRetries base jit f).2.2
          = (List.range maxRetries).map fun i => base * 2 ^ i) ∧
    (∀ (α : Type) (maxRetries : Nat) (base : ℚ) (jit : Nat → ℚ) (f : Nat → Except Err α)
        (m : String), f 0 = .error ⟨.other, m⟩ →
        retry_with_backoff maxRetries base jit f = (.error ⟨.other, m⟩, 1, [])) := by
  refine ⟨?_, ?_, ?_⟩
  · intro α maxRetries base jit f h
    have hx := retryAux_rateLimit_all base jit f h maxRetries 0
    rw [retry_with_backoff, hx, List.range_eq_range']
    exact ⟨rfl, by rw [Nat.zero_add], rfl⟩
  · intro α maxRetries base jit f h
    have hx := retryAux_retryable_all base jit f h maxRetries 0
    rw [retry_with_backoff, hx, List.range_eq_range']
    exact ⟨rfl, by rw [Nat.zero_add], rfl⟩
  · intro α maxRetries base jit f m h
    cases maxRetries <;> simp [retry_with_backoff, retryAux, h]

/-- Concrete always-rate-limited callee for the witness. -/
def fRateW : Nat → Except Err Unit := fun _ => .error ⟨.rateLimit, "429"⟩

theorem retry_with_backoff_spec_witness :
    (retry_with_backoff 3 1 (fun _ => (0 : ℚ)) fRateW).2.1 = 3 + 1 ∧
      (retry_with_backoff 3 1 (fun _ => (0 : ℚ)) fRateW).1 = fRateW 3 :=
  ⟨(retry_with_backoff_spec.1 Unit 3 1 (fun _ => (0 : ℚ)) fRateW fun _ => ⟨"429", rfl⟩).1,
   (retry_with_backoff_spec.1 Unit 3 1 (fun _ => (0 : ℚ)) fRateW fun _ => ⟨"429", rfl⟩).2.1⟩

/-! ### C8: path sanitization -/

lemma replaceChar_fold (cs : List Char) :
    ∀ l : List Char, cs.foldl (fun acc c => replaceChar c '_' acc) l
      = l.map fun x => if x ∈ cs then '_' else x := by
  induction cs with
  | nil =>
    intro l
    simp [List.map_id]
  | cons c cs ih =>
    intro l
    rw [List.foldl_cons, ih (replaceChar c '_' l)]
    unfold replaceChar
    rw [List.map_map]
    congr 1
    funext x
    by_cases hx : x = c
    · subst hx
      simp [Function.comp, List.mem_cons]
    · simp [Function.comp, hx, List.mem_cons]

lemma sanitize_eq_map_strip (l : List Char) :
    sanitize_filename l = pyStrip (l.map fun x => if x ∈ invalid_chars then '_' else x) := by
  unfold sanitize_filename
  rw [replaceChar_fold]

lemma mem_pyStrip {c : Char} {l : List Char} (h : c ∈ pyStrip l) : c ∈ l := by
  unfold pyStrip at h
  rw [List.mem_reverse] at h
  have h1 : c ∈ (l.dropWhile pyIsSpace).reverse := (List.dropWhile_sublist _).subset h
  rw [List.mem_reverse] at h1
  exact (List.dropWhile_sublist _).subset h1

/-- C8.  Path sanitization: `_sanitize_filename` is exactly the pointwise
replacement of the characters `<>:"/\|?*` by underscores followed by a
whitespace strip, and consequently its output contains none of those
characters. -/
theorem sanitize_filename_spec :
    (∀ title : List Char, sanitize_filename title
        = pyStrip (title.map fun x => if x ∈ invalid_chars then '_' else x)) ∧
    (∀ (title : List Char) (c : Char), c ∈ invalid_chars → c ∉ sanitize_filename title) := by
  refine ⟨sanitize_eq_map_strip, ?_⟩
  intro title c hc hmem
  rw [sanitize_eq_map_strip] at hmem
  obtain ⟨x, hx, hfx⟩ := List.mem_map.mp (mem_pyStrip hmem)
  by_cases hxi : x ∈ invalid_chars
  · rw [if_pos hxi] at hfx
    rw [← hfx] at hc
    exact absurd hc (by decide)
  · rw [if_neg hxi] at hfx
    rw [← hfx] at hc
    exact hxi hc

theorem sanitize_filename_spec_witness :
    '<' ∈ invalid_chars ∧ '<' ∉ sanitize_filename ['a', '<', 'b'] :=
  ⟨by decide, sanitize_filename_spec.2 ['a', '<', 'b'] '<' (by decide)⟩

end FeishuKS

namespace OssKb

/-! ### C6: the event filter -/

lemma str_append_ne_empty (a b : String) (ha : a ≠ "") : a ++ b ≠ "" := by
  intro hc
  apply ha
  have hl := congrArg String.length hc
  rw [String.length_append] at hl
  have h0 : a.length = 0 := by
    have : (("" : String)).length = 0 := rfl
    omega
  exact String.ext (List.length_eq_zero.mp h0)

lemma is_ignored_file_rejects (fn : String)
    (h : fn ∈ IGNORED_FILES ∨ (∃ p ∈ ignoredPfxPats, startsWithStr p fn = true) ∨
      ∃ p ∈ ignoredSfxPats, endsWithStr p fn = true) :
    (is_ignored_file fn).1 = true := by
  by_cases hm : fn ∈ IGNORED_FILES
  · simp [is_ignored_file, hm]
  · cases hp : ignoredPfxPats.find? (fun p => startsWithStr p fn) with
    | some p => simp [is_ignored_file, hm, hp]
    | none =>
      cases hs : ignoredSfxPats.find? (fun p => endsWithStr p fn) with
      | some p => simp [is_ignored_file, hm, hp, hs]
      | none =>
        exfalso
        rcases h with h | ⟨p, hpm, hps⟩ | ⟨p, hpm, hpe⟩
        · exact hm h
        · have := List.find?_eq_none.mp hp p hpm
          simp [hps] at this
        · have := List.find?_eq_none.mp hs p hpm
          simp [hpe] at this

lemma is_ignored_file_reason (fn : String) (h : (is_ignored_file fn).1 = true) :
    (is_ignored_file fn).2 ≠ "" := by
  by_cases hm : fn ∈ IGNORED_FILES
  · simp only [is_ignored_file, if_pos hm]
    exact str_append_ne_empty _ _ (by decide)
  · cases hp : ignoredPfxPats.find? (fun p => startsWithStr p fn) with
    | some p =>
      simp only [is_ignored_file, if_neg hm, hp]
      exact str_append_ne_empty _ _ (by decide)
    | none =>
      cases hs : ignoredSfxPats.find? (fun p => endsWithStr p fn) with
      | some p =>
        simp only [is_ignored_file, if_neg hm, hp, hs]
        exact str_append_ne_empty _ _ (by decide)
      | none =>
        simp [is_ignored_file, hm, hp, hs] at h

/-- C6.  The event filter: the spec's four concrete examples behave as
stated; rejection follows from an ignored base name, a key outside the
prefix filter, a trailing path separator, or a missing/unsupported
extension; `_is_ignored_file` fires on exact ignore-set matches and on the
ignore-name patterns; and every rejection carries a non-empty reason (it is
returned as a value, never raised). -/
theorem should_process_file_spec :
    ((should_process_file "wiki/" "wiki/Eng/.DS_Store").1 = false) ∧
    ((should_process_file "wiki/" "wiki/Eng/notes.md").1 = true) ∧
    ((should_process_file "wiki/" "other/notes.md").1 = false) ∧
    ((should_process_file "wiki/" "wiki/Eng/archive/").1 = false) ∧
    (∀ pf k : String, (is_ignored_file (String.mk (lastComponent '/' k.data))).1 = true →
      (should_process_file pf k).1 = false) ∧
    (∀ pf k : String, startsWithStr pf k = false → (should_process_file pf k).1 = false) ∧
    (∀ pf k : String, endsWithStr "/" k = true → (should_process_file pf k).1 = false) ∧
    (∀ pf k : String,
      (String.mk (splitextExt (pyLower k).data) = "" ∨
        supported_extensions.contains (String.mk (splitextExt (pyLower k).data)) = false) →
      (should_process_file pf k).1 = false) ∧
    (∀ fn : String,
      fn ∈ IGNORED_FILES ∨ (∃ p ∈ ignoredPfxPats, startsWithStr p fn = true) ∨
        (∃ p ∈ ignoredSfxPats, endsWithStr p fn = true) →
      (is_ignored_file fn).1 = true) ∧
    (∀ pf k : String, (should_process_file pf k).1 = false →
      (should_process_file pf k).2 ≠ "") := by
  refine ⟨by decide, by decide, by decide, by decide, ?_, ?_, ?_, ?_,
    fun fn h => is_ignored_file_rejects fn h, ?_⟩
  · intro pf k h
    simp [should_process_file, h]
  · intro pf k h
    by_cases hib : (is_ignored_file (String.mk (lastComponent '/' k.data))).1
    · simp [should_process_file, hib]
    · simp [should_process_file, hib, h]
  · intro pf k h
    by_cases hib : (is_ignored_file (String.mk (lastComponent '/' k.data))).1
    · simp [should_process_file, hib]
    · by_cases hpf : startsWithStr pf k
      · simp [should_process_file, hib, hpf, h]
      · simp [should_process_file, hib, hpf]
  · intro pf k h
    by_cases hib : (is_ignored_file (String.mk (lastComponent '/' k.data))).1
    · simp [should_process_file, hib]
    · by_cases hpf : startsWithStr pf k
      · by_cases hsl : endsWithStr "/" k
        · simp [should_process_file, hib, hpf, hsl]
        · rcases h with h | h
          · simp [should_process_file, hib, hpf, hsl, h]
          · by_cases hex : String.mk (splitextExt (pyLower k).data) = ""
            · simp [should_process_file, hib, hpf, hsl, hex]
            · have h' : ¬(String.mk (splitextExt (pyLower k).data) ∈ supported_extensions) := by
                simpa using h
              simp [should_process_file, hib, hpf, hsl, hex, h']
      · simp [should_process_file, hib, hpf]
  · intro pf k h
    by_cases hib : (is_ignored_file (String.mk (lastComponent '/' k.data))).1
    · simp only [should_process_file, if_pos hib] at h ⊢
      exact is_ignored_file_reason _ hib
    · by_cases hpf : startsWithStr pf k
      · by_cases hsl : endsWithStr "/" k
        · simp [should_process_file, hib, hpf, hsl]
        · by_cases hex : String.mk (splitextExt (pyLower k).data) = ""
          · simp [should_process_file, hib, hpf, hsl, hex]
          · by_cases hsup : String.mk (splitextExt (pyLower k).data) ∈ supported_extensions
            · simp [should_process_file, hib, hpf, hsl, hex, hsup] at h
            · have hgoal : (should_process_file pf k).2
                  = "不支持的文件类型: " ++ String.mk (splitextExt (pyLower k).data) := by
                simp [should_process_file, hib, hpf, hsl, hex, hsup]
              rw [hgoal]
              exact str_append_ne_empty _ _ (by decide)
      · have hgoal : (should_process_file pf k).2
            = "文件不在处理范围内 (要求前缀: " ++ pf ++ ")" := by
          simp [should_process_file, hib, hpf]
        rw [hgoal]
        exact str_append_ne_empty _ _ (str_append_ne_empty _ _ (by decide))

theorem should_process_file_spec_witness :
    (should_process_file "docs/" "media/clip.mp4").1 = false ∧
      (is_ignored_file ".DS_Store").1 = true :=
  ⟨should_process_file_spec.2.2.2.2.2.1 "docs/" "media/clip.mp4" (by decide),
   should_process_file_spec.2.2.2.2.2.2.2.2.1 ".DS_Store" (Or.inl (by decide))⟩

/-! ### C9: only the first notification record is processed -/

/-- C9.  For a notification whose events list holds one or more records,
both the extracted file information and the whole invocation (response and
operation trace) are identical to those of the notification holding only
the first record: the remaining records are silently dropped and produce no
index operations. -/
theorem extract_first_record_only (r : OssRecord) (rest : List OssRecord)
    (env : KbEnv) (cfg : KbCfg) (now : Nat) :
    extract_file_info ⟨r :: rest⟩ = extract_file_info ⟨[r]⟩ ∧
    kb_handler env cfg now ⟨r :: rest⟩ = kb_handler env cfg now ⟨[r]⟩ :=
  ⟨rfl, rfl⟩

/-! ### C4: the oversize cap in the create handler -/

/-- Indexer environment whose download yields an object one byte over the
200 MiB cap. -/
def kbEnvBig : KbEnv :=
  { download := fun _ _ _ => .ok { size := 209715201 }
    uploadDoc := fun _ _ _ => .ok "job-1"
    deleteDoc := fun _ => true }

/-- Default indexer configuration (`OSS_PREFIX_FILTER = "wiki/"`). -/
def kbCfgW : KbCfg := {}

/-- File information of an in-scope markdown object. -/
def fiBig : FileInfo :=
  { bucket_name := "b", object_key := "wiki/Eng/big.md", file_name := "big.md",
    event_name := "ObjectCreated:PutObject", region := "cn-hangzhou" }

/-- The single record of the create notification for that object. -/
def recBig : OssRecord :=
  { eventName := "ObjectCreated:PutObject"
    region := "oss-cn-hangzhou"
    bucketName := "b"
    objectKeyEncoded := "wiki/Eng/big.md" }

/-- A create notification for that object. -/
def evBig : KbEvent := { events := [recBig] }

/-- C4 counterexample.  An in-scope created object whose content is one
byte over the 200 MiB cap is rejected by the create handler, but the
rejection is NOT fatal for the invocation: the internal exception is caught
inside `process_create_event` and the invocation returns status 200 with a
structured failed outcome (no ingestion was submitted; the only external
operation is the download). -/
theorem oversize_fatal_cx :
    (kb_handler kbEnvBig kbCfgW 7 evBig).1.statusCode = 200 ∧
    (kb_handler kbEnvBig kbCfgW 7 evBig).1.result
      = some (KbResult.uploadFailed "文件太大: 209715201 字节，超过200MB限制" "big.md") ∧
    (kb_handler kbEnvBig kbCfgW 7 evBig).2 = [KbOp.download "b" "wiki/Eng/big.md"] := by
  decide

/-- C4 (amended).  For every in-scope created object whose downloaded
content exceeds the 200 MiB cap, the create handler rejects it — the
object is never submitted for ingestion and the result is a structured
failed outcome — but the rejection is caught inside the handler and the
invocation of any parseable event still returns status 200 (it is not
fatal). -/
theorem oversize_rejected_not_fatal (env : KbEnv) (cfg : KbCfg) (now : Nat)
    (fi : FileInfo) (content : OssContent)
    (hsp : (should_process_file cfg.pfxFilter fi.object_key).1 = true)
    (hdl : env.download fi.bucket_name fi.object_key fi.region = .ok content)
    (hsz : max_size < content.size) :
    process_create_event env cfg now fi
      = (.uploadFailed ("文件太大: " ++ toString content.size ++ " 字节，超过200MB限制")
           fi.file_name,
         [.download fi.bucket_name fi.object_key]) ∧
    ∀ (ev : KbEvent) (fi2 : FileInfo), extract_file_info ev = .ok fi2 →
      (kb_handler env cfg now ev).1.statusCode = 200 := by
  constructor
  · simp [process_create_event, hsp, hdl, if_pos hsz]
  · intro ev fi2 h
    simp [kb_handler, h]

theorem oversize_rejected_not_fatal_witness :
    process_create_event kbEnvBig kbCfgW 7 fiBig
      = (.uploadFailed ("文件太大: " ++ toString (209715201 : Nat) ++ " 字节，超过200MB限制")
           "big.md",
         [.download "b" "wiki/Eng/big.md"]) :=
  (oversize_rejected_not_fatal kbEnvBig kbCfgW 7 fiBig { size := 209715201 }
    (by decide) rfl (by decide)).1

end OssKb

namespace FeishuKS

/-! ### C1: deletion reconciliation -/

lemma hdd_foldl (env : SyncEnv) (current : List String) :
    ∀ (recs : Ledger) (acc : Nat × List String × List OssOp),
      recs.foldl (hddStep env current) acc =
        (acc.1 +
           ((recs.filter fun p =>
             !(decide (p.1 ∈ current)) && env.deleteOk p.2.oss_path)).length,
         acc.2.1 ++
           ((recs.filter fun p =>
             !(decide (p.1 ∈ current)) && env.deleteOk p.2.oss_path)).map Prod.fst,
         acc.2.2 ++
           ((recs.filter fun p => !(decide (p.1 ∈ current))).map
             fun p => OssOp.delete p.2.oss_path)) := by
  intro recs
  induction recs with
  | nil => intro acc; simp
  | cons p rest ih =>
    intro acc
    by_cases hm : p.1 ∈ current
    · rw [List.foldl_cons, ih]
      simp [hddStep, hm, List.filter_cons]
    · by_cases hd : env.deleteOk p.2.oss_path
      · rw [List.foldl_cons, ih]
        simp only [hddStep, hm, hd, if_true, if_false, if_neg, if_pos, decide_not,
          List.filter_cons, Prod.mk.injEq]
        simp [hm, hd, List.filter_cons, List.append_assoc]
        omega
      · rw [List.foldl_cons, ih]
        simp [hddStep, hm, hd, List.filter_cons, List.append_assoc]

lemma eraseFold_filter :
    ∀ (ts : List String) (recs : Ledger),
      ts.foldl ledgerErase recs = recs.filter fun p => !(decide (p.1 ∈ ts)) := by
  intro ts
  induction ts with
  | nil => intro recs; simp
  | cons t ts ih =>
    intro recs
    rw [List.foldl_cons, ih, ledgerErase, List.filter_filter]
    apply List.filter_congr
    intro p _
    by_cases h1 : p.1 = t <;> by_cases h2 : p.1 ∈ ts <;> simp [h1, h2]

lemma handle_deleted_documents_eq (env : SyncEnv) (recs : Ledger) (current : List String)
    (hnd : (recs.map Prod.fst).Nodup) :
    handle_deleted_documents env recs current =
      (((recs.filter fun p =>
          !(decide (p.1 ∈ current)) && env.deleteOk p.2.oss_path)).length,
       recs.filter fun p => decide (p.1 ∈ current) || !(env.deleteOk p.2.oss_path),
       ((recs.filter fun p => !(decide (p.1 ∈ current))).map
         fun p => OssOp.delete p.2.oss_path)) := by
  unfold handle_deleted_documents
  rw [hdd_foldl env current recs (0, [], [])]
  simp only [Nat.zero_add, List.nil_append, Prod.mk.injEq, true_and, and_true]
  rw [eraseFold_filter]
  apply List.filter_congr
  intro p hp
  by_cases hmem : p.1 ∈ current
  · have hnotin : p.1 ∉ ((recs.filter fun q =>
        !(decide (q.1 ∈ current)) && env.deleteOk q.2.oss_path)).map Prod.fst := by
      intro hc
      obtain ⟨q, hq, hqe⟩ := List.mem_map.mp hc
      have hqpred := (List.mem_filter.mp hq).2
      rw [hqe] at hqpred
      simp [hmem] at hqpred
    simp [hmem, hnotin]
  · by_cases hok : env.deleteOk p.2.oss_path
    · have hin : p.1 ∈ ((recs.filter fun q =>
          !(decide (q.1 ∈ current)) && env.deleteOk q.2.oss_path)).map Prod.fst := by
        apply List.mem_map.mpr
        exact ⟨p, List.mem_filter.mpr ⟨hp, by simp [hmem, hok]⟩, rfl⟩
      simp [hmem, hok, hin]
    · have hnotin : p.1 ∉ ((recs.filter fun q =>
          !(decide (q.1 ∈ current)) && env.deleteOk q.2.oss_path)).map Prod.fst := by
        intro hc
        obtain ⟨q, hq, hqe⟩ := List.mem_map.mp hc
        have hqrec := (List.mem_filter.mp hq).1
        have hqp : q = p := List.inj_on_of_nodup_map hnd hqrec hp hqe
        have hqpred := (List.mem_filter.mp hq).2
        rw [hqp] at hqpred
        simp [hok] at hqpred
      simp [hmem, hok, hnotin]

/-- C1 counterexample.  A ledger entry whose key is absent from the live
set and whose storage delete fails is NOT removed from the ledger (the
entry is still found afterwards), and is not counted as deleted — refuting
the claim that the ledger entry is removed even when the storage delete
fails.  Exactly one storage delete is still attempted for it. -/
theorem handle_deleted_documents_claim_cx :
    ledgerFind (handle_deleted_documents
        { fetchContent := fun _ => none, hashFn := fun _ => "", saveLocalOk := fun _ => true,
          uploadOk := fun _ => true, deleteOk := fun _ => false }
        [("tok1", recA)] []).2.1 "tok1" = some recA ∧
    (handle_deleted_documents
        { fetchContent := fun _ => none, hashFn := fun _ => "", saveLocalOk := fun _ => true,
          uploadOk := fun _ => true, deleteOk := fun _ => false }
        [("tok1", recA)] []).1 = 0 ∧
    (handle_deleted_documents
        { fetchContent := fun _ => none, hashFn := fun _ => "", saveLocalOk := fun _ => true,
          uploadOk := fun _ => true, deleteOk := fun _ => false }
        [("tok1", recA)] []).2.2 = [OssOp.delete recA.oss_path] := by
  decide

/-- C1 (amended).  Deletion reconciliation over a ledger with distinct keys
(a Python dict guarantees this): for every ledger entry whose key is absent
from the live set, exactly one storage delete is attempted — the operation
trace is precisely one delete per stale entry, in ledger order — the entry
is removed from the ledger if and only if its storage delete succeeds (on
failure the entry is retained for a later run), and the returned count is
the number of entries whose storage delete succeeded. -/
theorem handle_deleted_documents_spec (env : SyncEnv) (recs : Ledger)
    (current : List String) (hnd : (recs.map Prod.fst).Nodup) :
    (handle_deleted_documents env recs current).2.2
        = (recs.filter fun p => !(decide (p.1 ∈ current))).map
            (fun p => OssOp.delete p.2.oss_path) ∧
    (handle_deleted_documents env recs current).2.1
        = recs.filter (fun p => decide (p.1 ∈ current) || !(env.deleteOk p.2.oss_path)) ∧
    (handle_deleted_documents env recs current).1
        = ((recs.filter fun p =>
            !(decide (p.1 ∈ current)) && env.deleteOk p.2.oss_path)).length := by
  rw [handle_deleted_documents_eq env recs current hnd]
  exact ⟨rfl, rfl, rfl⟩

theorem handle_deleted_documents_spec_witness :
    (handle_deleted_documents
        { fetchContent := fun _ => none, hashFn := fun _ => "", saveLocalOk := fun _ => true,
          uploadOk := fun _ => true, deleteOk := fun _ => true }
        [("tok1", recA)] ["tok2"]).1
      = (([("tok1", recA)].filter fun p : String × SyncRecord =>
          !(decide (p.1 ∈ ["tok2"])) && true)).length :=
  (handle_deleted_documents_spec
    { fetchContent := fun _ => none, hashFn := fun _ => "", saveLocalOk := fun _ => true,
      uploadOk := fun _ => true, deleteOk := fun _ => true }
    [("tok1", recA)] ["tok2"] (by decide)).2.2

/-! ### C7: rename handling -/

/-- C7.  Rename handling: when a document's ledger entry carries a
different title and its sync succeeds, the run attempts exactly one storage
delete of the old path (best-effort: `env.deleteOk` is never consulted, a
failing delete cannot fail the sync) followed by the upload of the content
under the newly generated path, and the resulting ledger entry's storage
path is exactly the new path. -/
theorem sync_single_document_rename (env : SyncEnv) (cfg : SyncCfg) (recs : Ledger)
    (node : WikiNode) (sn : Option String) (now : Nat) (r : SyncRecord)
    (hfind : ledgerFind recs node.obj_token = some r)
    (htitle : r.title ≠ node.title)
    (hok : (sync_single_document env cfg recs node sn now).1 = true) :
    (sync_single_document env cfg recs node sn now).2.2
      = [OssOp.delete r.oss_path, OssOp.upload (generate_oss_path cfg node sn)] ∧
    ∃ v : SyncRecord,
      ledgerFind (sync_single_document env cfg recs node sn now).2.1 node.obj_token
          = some v ∧
        v.oss_path = generate_oss_path cfg node sn ∧ v.title = node.title := by
  have hneed : need_update recs node = true := by
    simp [need_update, hfind, htitle]
  cases hc : get_document_content env node.obj_token node.obj_type with
  | none =>
    exfalso
    rw [sync_single_document] at hok
    simp [hneed, hc] at hok
  | some content =>
    by_cases hsl : env.saveLocalOk (generate_local_path cfg node sn) = true
    · by_cases hup : env.uploadOk (generate_oss_path cfg node sn) = true
      · constructor
        · rw [sync_single_document]
          simp [hneed, hc, hfind, htitle, hsl, hup]
        · refine
            ⟨{ obj_token := node.obj_token
               title := node.title
               oss_path := generate_oss_path cfg node sn
               content_hash := env.hashFn content
               last_sync := now
               obj_edit_time := node.obj_edit_time
               obj_type := node.obj_type },
             ?_, rfl, rfl⟩
          rw [sync_single_document]
          simp only [hneed, hc, hfind, htitle, hsl, hup]
          simp [hneed, hc, hsl, hup]
          exact ledgerFind_insert_self recs node.obj_token _
      · exfalso
        rw [sync_single_document] at hok
        simp [hneed, hc, hsl, hup] at hok
    · exfalso
      rw [sync_single_document] at hok
      simp [hneed, hc, hsl] at hok

/-- Concrete renamed node for the witness. -/
def nodeRen : WikiNode :=
  { node_token := "n1", obj_token := "tok1", obj_type := "docx",
    title := "NewTitle", space_id := "sp1", obj_edit_time := "200" }

/-- Concrete stale ledger entry carrying the old title. -/
def recOldTitle : SyncRecord :=
  { obj_token := "tok1", title := "OldTitle", oss_path := "wiki/sp1/OldTitle.md",
    content_hash := "h", last_sync := 0, obj_edit_time := "100" }

/-- Sync environment for the rename witness; its failing `deleteOk` also
exhibits that the old-path delete outcome cannot fail the sync. -/
def envRen : SyncEnv :=
  { fetchContent := fun _ => some "body", hashFn := fun _ => "H",
    saveLocalOk := fun _ => true, uploadOk := fun _ => true, deleteOk := fun _ => false }

theorem sync_single_document_rename_witness :
    (sync_single_document envRen {} [("tok1", recOldTitle)] nodeRen (some "S") 5).2.2
      = [OssOp.delete recOldTitle.oss_path,
         OssOp.upload (generate_oss_path {} nodeRen (some "S"))] :=
  (sync_single_document_rename envRen {} [("tok1", recOldTitle)] nodeRen (some "S") 5
    recOldTitle (by decide) (by decide) (by decide)).1

/-! ### C3: idempotence of the sync run -/

lemma sync_single_find_ne (env : SyncEnv) (cfg : SyncCfg) (recs : Ledger) (node : WikiNode)
    (sn : Option String) (now : Nat) (t : String) (h : t ≠ node.obj_token) :
    ledgerFind (sync_single_document env cfg recs node sn now).2.1 t = ledgerFind recs t := by
  rw [sync_single_document]
  by_cases hneed : need_update recs node = false
  · simp [hneed]
  · cases hc : get_document_content env node.obj_token node.obj_type with
    | none => simp [hneed, hc]
    | some content =>
      by_cases hsl : env.saveLocalOk (generate_local_path cfg node sn) = true
      · by_cases hup : env.uploadOk (generate_oss_path cfg node sn) = true
        · simp [hneed, hc, hsl, hup, ledgerFind_insert_ne _ _ _ _ h]
        · simp [hneed, hc, hsl, hup]
      · simp [hneed, hc, hsl]

lemma sync_single_success_find (env : SyncEnv) (cfg : SyncCfg) (recs : Ledger)
    (node : WikiNode) (sn : Option String) (now : Nat)
    (hneed : need_update recs node = true)
    (hok : (sync_single_document env cfg recs node sn now).1 = true) :
    ∃ v : SyncRecord,
      ledgerFind (sync_single_document env cfg recs node sn now).2.1 node.obj_token
          = some v ∧
        v.title = node.title ∧ v.obj_edit_time = node.obj_edit_time := by
  cases hc : get_document_content env node.obj_token node.obj_type with
  | none =>
    exfalso
    rw [sync_single_document] at hok
    simp [hneed, hc] at hok
  | some content =>
    by_cases hsl : env.saveLocalOk (generate_local_path cfg node sn) = true
    · by_cases hup : env.uploadOk (generate_oss_path cfg node sn) = true
      · refine
          ⟨{ obj_token := node.obj_token
             title := node.title
             oss_path := generate_oss_path cfg node sn
             content_hash := env.hashFn content
             last_sync := now
             obj_edit_time := node.obj_edit_time
             obj_type := node.obj_type },
           ?_, rfl, rfl⟩
        rw [sync_single_document]
        simp [hneed, hc, hsl, hup]
        exact ledgerFind_insert_self recs node.obj_token _
      · exfalso
        rw [sync_single_document] at hok
        simp [hneed, hc, hsl, hup] at hok
    · exfalso
      rw [sync_single_document] at hok
      simp [hneed, hc, hsl] at hok

lemma need_update_congr {recs recs' : Ledger} (node : WikiNode)
    (h : ledgerFind recs node.obj_token = ledgerFind recs' node.obj_token) :
    need_update recs node = need_update recs' node := by
  unfold need_update
  rw [h]

lemma need_update_false_match (recs : Ledger) (node : WikiNode)
    (h : need_update recs node = false) :
    ∃ r : SyncRecord, ledgerFind recs node.obj_token = some r ∧
      r.title = node.title ∧ r.obj_edit_time = node.obj_edit_time := by
  unfold need_update at h
  cases hf : ledgerFind recs node.obj_token with
  | none => rw [hf] at h; simp at h
  | some r =>
    rw [hf] at h
    by_cases ht : r.title = node.title
    · by_cases he : r.obj_edit_time = node.obj_edit_time
      · exact ⟨r, rfl, ht, he⟩
      · simp [ht, he] at h
    · simp [ht] at h

lemma need_update_eq_false (recs : Ledger) (node : WikiNode) (r : SyncRecord)
    (hf : ledgerFind recs node.obj_token = some r)
    (ht : r.title = node.title) (he : r.obj_edit_time = node.obj_edit_time) :
    need_update recs node = false := by
  simp [need_update, hf, ht, he]

lemma syncPool_find_ne (env : SyncEnv) (cfg : SyncCfg) (sn : Option String) (now : Nat) :
    ∀ (ns : List WikiNode) (st : PoolState) (t : String),
      (∀ n ∈ ns, t ≠ n.obj_token) →
      ledgerFind (syncPool env cfg sn now st ns).records t = ledgerFind st.records t := by
  intro ns
  induction ns with
  | nil => intro st t _; rfl
  | cons n rest ih =>
    intro st t h
    have h1 := ih (syncStep env cfg sn now st n) t
      (fun m hm => h m (List.mem_cons_of_mem _ hm))
    simp only [syncPool, List.foldl_cons] at h1 ⊢
    rw [h1]
    simpa [syncStep] using
      sync_single_find_ne env cfg st.records n sn now t (h n (List.mem_cons_self _ _))

lemma syncPool_failed_le (env : SyncEnv) (cfg : SyncCfg) (sn : Option String) (now : Nat) :
    ∀ (ns : List WikiNode) (st : PoolState),
      st.failed ≤ (syncPool env cfg sn now st ns).failed := by
  intro ns
  induction ns with
  | nil => intro st; exact Nat.le_refl _
  | cons n rest ih =>
    intro st
    have h1 : st.failed ≤ (syncStep env cfg sn now st n).failed := by
      simp only [syncStep]
      omega
    have h2 := ih (syncStep env cfg sn now st n)
    simp only [syncPool, List.foldl_cons] at h2 ⊢
    omega

lemma syncPool_success_matching (env : SyncEnv) (cfg : SyncCfg) (sn : Option String)
    (now : Nat) :
    ∀ (ns : List WikiNode) (st : PoolState),
      (ns.map (·.obj_token)).Nodup →
      (syncPool env cfg sn now st ns).failed = st.failed →
      ∀ n ∈ ns, need_update st.records n = true →
        ∃ v : SyncRecord,
          ledgerFind (syncPool env cfg sn now st ns).records n.obj_token = some v ∧
            v.title = n.title ∧ v.obj_edit_time = n.obj_edit_time := by
  intro ns
  induction ns with
  | nil => intro st _ _ n hn; exact absurd hn (List.not_mem_nil n)
  | cons m rest ih =>
    intro st hnd hfail n hn hneed
    have hnd' := List.nodup_cons.mp hnd
    have hpool_cons :
        syncPool env cfg sn now st (m :: rest)
          = syncPool env cfg sn now (syncStep env cfg sn now st m) rest := by
      simp [syncPool, List.foldl_cons]
    have hstep_le : st.failed ≤ (syncStep env cfg sn now st m).failed := by
      simp only [syncStep]
      omega
    have hrest_le := syncPool_failed_le env cfg sn now rest (syncStep env cfg sn now st m)
    rw [hpool_cons] at hfail
    have hst1_failed : (syncStep env cfg sn now st m).failed = st.failed := by omega
    have hok : (sync_single_document env cfg st.records m sn now).1 = true := by
      cases hco : (sync_single_document env cfg st.records m sn now).1 with
      | true => rfl
      | false =>
        exfalso
        have : (syncStep env cfg sn now st m).failed = st.failed + 1 := by
          simp [syncStep, hco]
        omega
    rcases List.mem_cons.mp hn with rfl | hn'
    · obtain ⟨v, hv, hvt, hve⟩ :=
        sync_single_success_find env cfg st.records n sn now hneed hok
      refine ⟨v, ?_, hvt, hve⟩
      rw [hpool_cons, syncPool_find_ne env cfg sn now rest (syncStep env cfg sn now st n)
        n.obj_token ?_]
      · simpa [syncStep] using hv
      · intro q hq he
        apply hnd'.1
        simp only [he]
        exact List.mem_map_of_mem (·.obj_token) hq
    · have hne : n.obj_token ≠ m.obj_token := by
        intro he
        apply hnd'.1
        simp only [← he]
        exact List.mem_map_of_mem (·.obj_token) hn'
      have hfind_eq :
          ledgerFind (syncStep env cfg sn now st m).records n.obj_token
            = ledgerFind st.records n.obj_token := by
        simpa [syncStep] using
          sync_single_find_ne env cfg st.records m sn now n.obj_token hne
      have hneed1 : need_update (syncStep env cfg sn now st m).records n = true := by
        rw [need_update_congr n hfind_eq]
        exact hneed
      have hres := ih (syncStep env cfg sn now st m) hnd'.2
        (by rw [hfail, hst1_failed]) n hn' hneed1
      rw [hpool_cons]
      exact hres

lemma ledgerFind_filter_of (q : String × SyncRecord → Bool) (t : String) :
    ∀ recs : Ledger, (∀ p ∈ recs, p.1 = t → q p = true) →
      ledgerFind (recs.filter q) t = ledgerFind recs t := by
  intro recs
  induction recs with
  | nil => intro _; rfl
  | cons p rest ih =>
    intro h
    have hrest := ih fun x hx hxt => h x (List.mem_cons_of_mem _ hx) hxt
    by_cases hp : p.1 = t
    · have hq := h p (List.mem_cons_self _ _) hp
      simp [List.filter_cons, hq, ledgerFind_cons, hp]
    · cases hq : q p <;> simp [List.filter_cons, hq, ledgerFind_cons, hp, hrest]

lemma handle_deleted_find_live (env : SyncEnv) (recs : Ledger) (current : List String)
    (t : String) (ht : t ∈ current) :
    ledgerFind (handle_deleted_documents env recs current).2.1 t = ledgerFind recs t := by
  unfold handle_deleted_documents
  rw [hdd_foldl env current recs (0, [], [])]
  simp only [List.nil_append]
  rw [eraseFold_filter]
  apply ledgerFind_filter_of
  intro p _ hpt
  rw [hpt]
  have hnotin : t ∉ (recs.filter fun q =>
      !(decide (q.1 ∈ current)) && env.deleteOk q.2.oss_path).map Prod.fst := by
    intro hc
    obtain ⟨q, hq, hqe⟩ := List.mem_map.mp hc
    have hpred := (List.mem_filter.mp hq).2
    rw [hqe] at hpred
    simp [ht] at hpred
  simpa using hnotin

lemma handle_deleted_ops_deletes (env : SyncEnv) (recs : Ledger) (current : List String) :
    ∀ op ∈ (handle_deleted_documents env recs current).2.2,
      ∃ pth, op = OssOp.delete pth := by
  intro op hop
  unfold handle_deleted_documents at hop
  rw [hdd_foldl env current recs (0, [], [])] at hop
  simp only [List.nil_append] at hop
  obtain ⟨p, _, he⟩ := List.mem_map.mp hop
  exact ⟨p.2.oss_path, he.symm⟩

/-- C3.  Idempotence of the sync run: if the first run over a walked node
list with distinct document ids is fully successful (`failed = 0`), then a
second run over the same nodes against the resulting ledger performs zero
uploads, reports zero successes and failures, and skips every docx-type
document (`skipped` equals the docx count). -/
theorem sync_run_idempotent (env : SyncEnv) (cfg : SyncCfg) (recs : Ledger)
    (nodes : List WikiNode) (sn : Option String) (now1 now2 : Nat)
    (hnd : ((nodes.filter fun n => decide (n.obj_type = "docx")).map (·.obj_token)).Nodup)
    (h1 : (sync_documents_parallel env cfg recs nodes sn now1).1.failed = 0)
    (recs1 : Ledger)
    (hrecs1 : recs1 = (sync_documents_parallel env cfg recs nodes sn now1).2.1) :
    (sync_documents_parallel env cfg recs1 nodes sn now2).1.skipped
        = (nodes.filter fun n => decide (n.obj_type = "docx")).length ∧
    (sync_documents_parallel env cfg recs1 nodes sn now2).1.successful = 0 ∧
    (sync_documents_parallel env cfg recs1 nodes sn now2).1.failed = 0 ∧
    ∀ pth : String,
      OssOp.upload pth ∉ (sync_documents_parallel env cfg recs1 nodes sn now2).2.2 := by
  subst hrecs1
  have hAll : ∀ n ∈ nodes.filter (fun n => decide (n.obj_type = "docx")),
      need_update ((sync_documents_parallel env cfg recs nodes sn now1).2.1) n = false := by
    intro n hn
    have htok : n.obj_token
        ∈ (nodes.filter fun n => decide (n.obj_type = "docx")).map (·.obj_token) :=
      List.mem_map_of_mem _ hn
    have hfind_hdd :
        ledgerFind ((sync_documents_parallel env cfg recs nodes sn now1).2.1) n.obj_token
          = ledgerFind (syncPool env cfg sn now1 ⟨0, 0, recs, []⟩
              ((nodes.filter fun n => decide (n.obj_type = "docx")).filter
                fun n => need_update recs n)).records n.obj_token :=
      handle_deleted_find_live env _ _ _ htok
    by_cases hneed : need_update recs n = true
    · have hmem_ts : n ∈ (nodes.filter fun n => decide (n.obj_type = "docx")).filter
          (fun n => need_update recs n) := List.mem_filter.mpr ⟨hn, hneed⟩
      have hnd_ts : (((nodes.filter fun n => decide (n.obj_type = "docx")).filter
          (fun n => need_update recs n)).map (·.obj_token)).Nodup :=
        hnd.sublist (List.Sublist.map _ (List.filter_sublist _))
      have hfail0 : (syncPool env cfg sn now1 ⟨0, 0, recs, []⟩
          ((nodes.filter fun n => decide (n.obj_type = "docx")).filter
            fun n => need_update recs n)).failed
          = (⟨0, 0, recs, []⟩ : PoolState).failed := h1
      obtain ⟨v, hv, hvt, hve⟩ :=
        syncPool_success_matching env cfg sn now1 _ _ hnd_ts hfail0 n hmem_ts hneed
      exact need_update_eq_false _ n v (hfind_hdd.trans hv) hvt hve
    · have hneedf : need_update recs n = false := by simpa using hneed
      obtain ⟨r, hf, ht, he⟩ := need_update_false_match recs n hneedf
      have hne_all : ∀ m ∈ (nodes.filter fun n => decide (n.obj_type = "docx")).filter
          (fun n => need_update recs n), n.obj_token ≠ m.obj_token := by
        intro m hm heq
        have hmdoc := (List.mem_filter.mp hm).1
        have hmneed := (List.mem_filter.mp hm).2
        have hmn : m = n := List.inj_on_of_nodup_map hnd hmdoc hn heq.symm
        rw [hmn, hneedf] at hmneed
        exact Bool.false_ne_true hmneed
      have hpoolfind := syncPool_find_ne env cfg sn now1 _ ⟨0, 0, recs, []⟩
        n.obj_token hne_all
      exact need_update_eq_false _ n r ((hfind_hdd.trans hpoolfind).trans hf) ht he
  have hts2 : (nodes.filter fun n => decide (n.obj_type = "docx")).filter
      (fun n => need_update ((sync_documents_parallel env cfg recs nodes sn now1).2.1) n)
      = [] :=
    List.filter_eq_nil_iff.mpr fun n hn => by simp [hAll n hn]
  have hskip : ((nodes.filter fun n => decide (n.obj_type = "docx")).filter
      fun n => !(need_update ((sync_documents_parallel env cfg recs nodes sn now1).2.1) n))
      = nodes.filter fun n => decide (n.obj_type = "docx") :=
    List.filter_eq_self.mpr fun n hn => by simp [hAll n hn]
  refine ⟨?_, ?_, ?_, ?_⟩
  · have hcomp : (sync_documents_parallel env cfg
        ((sync_documents_parallel env cfg recs nodes sn now1).2.1) nodes sn now2).1.skipped
        = ((nodes.filter fun n => decide (n.obj_type = "docx")).filter
            fun n => !(need_update
              ((sync_documents_parallel env cfg recs nodes sn now1).2.1) n)).length := rfl
    rw [hcomp, hskip]
  · have hcomp : (sync_documents_parallel env cfg
        ((sync_documents_parallel env cfg recs nodes sn now1).2.1) nodes sn now2).1.successful
        = (syncPool env cfg sn now2
            ⟨0, 0, (sync_documents_parallel env cfg recs nodes sn now1).2.1, []⟩
            ((nodes.filter fun n => decide (n.obj_type = "docx")).filter
              fun n => need_update
                ((sync_documents_parallel env cfg recs nodes sn now1).2.1) n)).successful :=
      rfl
    rw [hcomp, hts2]
    rfl
  · have hcomp : (sync_documents_parallel env cfg
        ((sync_documents_parallel env cfg recs nodes sn now1).2.1) nodes sn now2).1.failed
        = (syncPool env cfg sn now2
            ⟨0, 0, (sync_documents_parallel env cfg recs nodes sn now1).2.1, []⟩
            ((nodes.filter fun n => decide (n.obj_type = "docx")).filter
              fun n => need_update
                ((sync_documents_parallel env cfg recs nodes sn now1).2.1) n)).failed :=
      rfl
    rw [hcomp, hts2]
    rfl
  · intro pth hmem
    have hcomp : (sync_documents_parallel env cfg
        ((sync_documents_parallel env cfg recs nodes sn now1).2.1) nodes sn now2).2.2
        = (syncPool env cfg sn now2
            ⟨0, 0, (sync_documents_parallel env cfg recs nodes sn now1).2.1, []⟩
            ((nodes.filter fun n => decide (n.obj_type = "docx")).filter
              fun n => need_update
                ((sync_documents_parallel env cfg recs nodes sn now1).2.1) n)).ops
          ++ (handle_deleted_documents env
              (syncPool env cfg sn now2
                ⟨0, 0, (sync_documents_parallel env cfg recs nodes sn now1).2.1, []⟩
                ((nodes.filter fun n => decide (n.obj_type = "docx")).filter
                  fun n => need_update
                    ((sync_documents_parallel env cfg recs nodes sn now1).2.1) n)).records
              ((nodes.filter fun n => decide (n.obj_type = "docx")).map (·.obj_token))).2.2 :=
      rfl
    rw [hcomp, hts2] at hmem
    simp only [syncPool, List.foldl_nil, List.nil_append] at hmem
    obtain ⟨p, hp⟩ := handle_deleted_ops_deletes env _ _ _ hmem
    exact OssOp.noConfusion hp

/-- Sync environment in which every external operation succeeds. -/
def envOkW : SyncEnv :=
  { fetchContent := fun _ => some "hello", hashFn := fun _ => "H",
    saveLocalOk := fun _ => true, uploadOk := fun _ => true, deleteOk := fun _ => true }

theorem sync_run_idempotent_witness :
    (sync_documents_parallel envOkW {}
        ((sync_documents_parallel envOkW {} [] [nodeA] (some "SpaceA") 0).2.1)
        [nodeA] (some "SpaceA") 1).1.skipped
      = ([nodeA].filter fun n => decide (n.obj_type = "docx")).length :=
  (sync_run_idempotent envOkW {} [] [nodeA] (some "SpaceA") 0 1 (by decide) (by decide)
    _ rfl).1

end FeishuKS
